import Mathlib

/-!
Shallow embedding of `scripts/AlbedoMMFitting/render_utils.py`.

The Python module is a pure numerical utility operating pointwise over
batched tensors; every operation is elementwise over the batch, so the
embedding models one batch point: direction vectors and colors become
`Vec3` records of real numbers, scalar tensors become `ℝ`.  Floating
point arithmetic is modelled by exact real arithmetic; `torch.sqrt` is
`Real.sqrt`, (in Lean, division by zero yields 0 where a float would
give inf/NaN).  `torch.nn.functional.normalize` divides by the norm
clamped below by its default `eps = 1e-12`; `torch.linalg.norm` based
normalization (in `_compute_rays`) divides by the plain norm.
-/

noncomputable section

namespace RenderUtils

/-- A 3-component real vector, one batch point of a `[..., 3]` tensor. -/
@[ext]
structure Vec3 where
  x : ℝ
  y : ℝ
  z : ℝ

/-- Componentwise addition of vectors (`tensor1 + tensor2`). -/
def addV (a b : Vec3) : Vec3 := ⟨a.x + b.x, a.y + b.y, a.z + b.z⟩

/-- Componentwise negation (`-tensor`). -/
def negV (a : Vec3) : Vec3 := ⟨-a.x, -a.y, -a.z⟩

/-- The zero vector. -/
def zeroV : Vec3 := ⟨0, 0, 0⟩

/-- Scale every component of a vector by a scalar; this models the
broadcast product `tensor * scalar[..., None]`. -/
def scaleV (a : Vec3) (c : ℝ) : Vec3 := ⟨a.x * c, a.y * c, a.z * c⟩

/-- Sum over the trailing axis of the elementwise product:
`(tensor1 * tensor2).sum(-1)`. -/
def dot3 (a b : Vec3) : ℝ := a.x * b.x + a.y * b.y + a.z * b.z

/-- Euclidean norm of a vector over the trailing axis. -/
def norm3 (v : Vec3) : ℝ := Real.sqrt (dot3 v v)

/-- The rectifier `torch.nn.functional.relu`. -/
def relu (t : ℝ) : ℝ := max t 0

/-- Embedding of `torch.nn.functional.normalize(v, dim=-1)`:
`v / max(‖v‖₂, eps)` with the torch default `eps = 1e-12`. -/
def normalizeV (v : Vec3) : Vec3 :=
  ⟨v.x / max (norm3 v) 1e-12, v.y / max (norm3 v) 1e-12, v.z / max (norm3 v) 1e-12⟩

/-- Division of a vector by its plain (unclamped) Euclidean norm, as in
`directions / torch.linalg.norm(directions, dim=-1, keepdims=True)`. -/
def normalizePlain (v : Vec3) : Vec3 :=
  ⟨v.x / norm3 v, v.y / norm3 v, v.z / norm3 v⟩

/-- Embedding of `dot(tensor1, tensor2, dim=-1, keepdim, non_negative, epsilon)`.
The reduction axis is the trailing one and `keepdim` only affects tensor
shape, so one batch point reduces to a scalar; `torch.clamp_min x eps`
is `max x eps`. -/
def dot (tensor1 tensor2 : Vec3) (non_negative : Bool) (epsilon : ℝ) : ℝ :=
  let t := dot3 tensor1 tensor2
  if non_negative then max t epsilon else t

/-- Embedding of `_GGX_smith(n_d_h, n_d_v, n_d_l, alpha, epsilon=1e-10)`:
the GGX normal distribution `D` and the Smith geometric term `G`. -/
def GGX_smith (n_d_h n_d_v n_d_l alpha epsilon : ℝ) : ℝ × ℝ :=
  let n_d_h_sq := n_d_h ^ 2
  let alpha_sq := alpha ^ 2
  let D := alpha_sq / Real.pi / (n_d_h_sq * (alpha_sq - 1) + 1 + epsilon) ^ 2
  let n_d_v_sq := n_d_v ^ 2
  let n_d_l_sq := n_d_l ^ 2
  let G_v := 2 / (Real.sqrt (1 + alpha_sq * (1 / n_d_v_sq - 1)) + 1)
  let G_l := 2 / (Real.sqrt (1 + alpha_sq * (1 / n_d_l_sq - 1)) + 1)
  let G := G_v * G_l
  (D, G)

/-- Embedding of `_diffuse(n_d_l, n_d_v, l_d_h, roughness)`: the Burley
diffuse multiplier. -/
def diffuse (n_d_l n_d_v l_d_h roughness : ℝ) : ℝ :=
  let F_D90 := 2 * roughness * l_d_h ^ 2 + 0.5
  let diff_l := 1 + (F_D90 - 1) * (1 - n_d_l) ^ 5
  let diff_v := 1 + (F_D90 - 1) * (1 - n_d_v) ^ 5
  let base_diffuse := diff_l * diff_v / Real.pi
  base_diffuse

/-- Embedding of `_burley_shading(normal_vecs, incident_vecs, view_vecs,
specular, roughness, base_color)`.  All four cosines go through `dot`
with `non_negative=True` at the default `epsilon = 1e-6`; `specular` and
`base_color` are per-channel colors, so the Fresnel term and both
radiance results are `Vec3` of channels. -/
def burley_shading (normal_vecs incident_vecs view_vecs specular : Vec3)
    (roughness : ℝ) (base_color : Vec3) : Vec3 × Vec3 :=
  let half_vecs := normalizeV (addV incident_vecs view_vecs)
  let h_n := dot half_vecs normal_vecs true 1e-6
  let v_n := dot view_vecs normal_vecs true 1e-6
  let l_n := dot incident_vecs normal_vecs true 1e-6
  let l_h := dot incident_vecs half_vecs true 1e-6
  let alpha := 0.0001 + roughness ^ 2 * (1 - 0.0002)
  let DG := GGX_smith h_n v_n l_n alpha 1e-10
  let F0 := scaleV specular 0.08
  let F_metal : Vec3 :=
    ⟨F0.x + (1 - F0.x) * (1 - l_h) ^ 5,
     F0.y + (1 - F0.y) * (1 - l_h) ^ 5,
     F0.z + (1 - F0.z) * (1 - l_h) ^ 5⟩
  let r_specular : Vec3 :=
    ⟨DG.1 * DG.2 * F_metal.x / (4 * v_n * l_n),
     DG.1 * DG.2 * F_metal.y / (4 * v_n * l_n),
     DG.1 * DG.2 * F_metal.z / (4 * v_n * l_n)⟩
  let r_diffuse := scaleV base_color (diffuse l_n v_n l_h roughness)
  (r_diffuse, r_specular)

/-- Embedding of `_apply_shading_burley(normals, view_dirs, light_dirs,
specular, roughness, base_color)`.  `view_dirs`/`light_dirs` use the
camera-to-surface / light-to-surface convention and are negated before
the BRDF call; `falloff` is forced to 0 outside the visibility mask. -/
def apply_shading_burley (normals view_dirs light_dirs specular : Vec3)
    (roughness : ℝ) (base_color : Vec3) : Vec3 × Vec3 :=
  let normals_n := normalizeV normals
  let light_dirs_ := normalizeV light_dirs
  let view_dirs_n := normalizeV view_dirs
  let falloff := relu (-(dot3 normals_n light_dirs_))
  let forward_facing := dot normals_n view_dirs_n false 1e-6 < 0
  let falloff_masked := if 0 < falloff ∧ forward_facing then falloff else 0
  let ds := burley_shading normals_n (negV light_dirs_) (negV view_dirs_n)
    specular roughness base_color
  (scaleV ds.1 falloff_masked, scaleV ds.2 falloff_masked)

/-- The entries of the `[3,3]` intrinsic matrix that `_compute_rays`
reads: `intrinsic[0,0] = fx`, `intrinsic[1,1] = fy`, `intrinsic[0,2] = cx`,
`intrinsic[1,2] = cy`. -/
structure Intrinsic where
  fx : ℝ
  fy : ℝ
  cx : ℝ
  cy : ℝ

/-- The entries of a camera-to-world transform that `_compute_rays`
reads: the top-left `3×3` rotation block `c2w[:3, :3]` and the
translation column `c2w[:3, -1]`. -/
structure C2W where
  r00 : ℝ
  r01 : ℝ
  r02 : ℝ
  r10 : ℝ
  r11 : ℝ
  r12 : ℝ
  r20 : ℝ
  r21 : ℝ
  r22 : ℝ
  t0 : ℝ
  t1 : ℝ
  t2 : ℝ

/-- Camera-space pixel ray for pixel-grid coordinates `(x, y)`:
`((x - cx + 0.5)/fx, (y - cy + 0.5)/fy, 1)`, from the `torch.stack`
building `camera_dirs` in `_compute_rays`. -/
def cameraDir (intrinsic : Intrinsic) (xPix yPix : ℕ) : Vec3 :=
  ⟨((xPix : ℝ) - intrinsic.cx + 0.5) / intrinsic.fx,
   ((yPix : ℝ) - intrinsic.cy + 0.5) / intrinsic.fy,
   1⟩

/-- Application of the rotation block `c2w[:3, :3]` to a direction:
`torch.matmul(c2w[:, None, :3, :3], camera_dirs[..., None])[..., 0]`. -/
def rotApply (c2w : C2W) (d : Vec3) : Vec3 :=
  ⟨c2w.r00 * d.x + c2w.r01 * d.y + c2w.r02 * d.z,
   c2w.r10 * d.x + c2w.r11 * d.y + c2w.r12 * d.z,
   c2w.r20 * d.x + c2w.r21 * d.y + c2w.r22 * d.z⟩

/-- World-space (unnormalized) ray direction of flat ray index `k` in
`_compute_rays`.  The meshgrid of `arange(width)`/`arange(height)` is
transposed to `[H, W]` and flattened row-major, so flat index `k` holds
pixel column `x = k % width` and row `y = k / width`. -/
def raysFlatDir (c2w : C2W) (intrinsic : Intrinsic) (width k : ℕ) : Vec3 :=
  rotApply c2w (cameraDir intrinsic (k % width) (k / width))

/-- Entry `[y, x]` of the `viewdirs` output of `_compute_rays` (for one
batch element): the reshape to `[h, w, 3]` places flat ray index
`y * width + x` at row `y`, column `x`; the direction is divided by its
`torch.linalg.norm`. -/
def computeRaysViewdir (c2w : C2W) (intrinsic : Intrinsic)
    (width yPix xPix : ℕ) : Vec3 :=
  normalizePlain (raysFlatDir c2w intrinsic width (yPix * width + xPix))

/-- The `origins` output of `_compute_rays` (one batch element):
`c2w[:3, -1]`. -/
def computeRaysOrigin (c2w : C2W) : Vec3 := ⟨c2w.t0, c2w.t1, c2w.t2⟩

/-- C3: for every input, `ggxSmith` returns
`D = alpha² / (π · (n·h² · (alpha² − 1) + 1 + ε)²)` with `ε = 1e-10`, and
`G = G_v · G_l` where `G_x = 2 / (sqrt(1 + alpha²·(1/x² − 1)) + 1)` applied
independently at `x = n·v` and `x = n·l`. -/
theorem GGX_smith_formula (n_d_h n_d_v n_d_l alpha : ℝ) :
    GGX_smith n_d_h n_d_v n_d_l alpha 1e-10 =
      (alpha ^ 2 / (Real.pi * (n_d_h ^ 2 * (alpha ^ 2 - 1) + 1 + 1e-10) ^ 2),
       (2 / (Real.sqrt (1 + alpha ^ 2 * (1 / n_d_v ^ 2 - 1)) + 1)) *
         (2 / (Real.sqrt (1 + alpha ^ 2 * (1 / n_d_l ^ 2 - 1)) + 1))) := by
  simp only [GGX_smith, Prod.mk.injEq]
  exact ⟨div_div _ _ _, trivial⟩

/-- C4: for `n·h`, `n·v`, `n·l` in `(0,1]` and `alpha` in `(0,1]`, the two
values returned by `ggxSmith` are non-negative, and each denominator is
strictly positive (the real-model reading of float finiteness: no division
can blow up). -/
theorem GGX_smith_safe (n_d_h n_d_v n_d_l alpha : ℝ)
    (hh0 : 0 < n_d_h) (hh1 : n_d_h ≤ 1) (hv0 : 0 < n_d_v) (hv1 : n_d_v ≤ 1)
    (hl0 : 0 < n_d_l) (hl1 : n_d_l ≤ 1) (ha0 : 0 < alpha) (ha1 : alpha ≤ 1) :
    0 ≤ (GGX_smith n_d_h n_d_v n_d_l alpha 1e-10).1 ∧
    0 ≤ (GGX_smith n_d_h n_d_v n_d_l alpha 1e-10).2 ∧
    0 < n_d_h ^ 2 * (alpha ^ 2 - 1) + 1 + 1e-10 ∧
    0 < Real.sqrt (1 + alpha ^ 2 * (1 / n_d_v ^ 2 - 1)) + 1 ∧
    0 < Real.sqrt (1 + alpha ^ 2 * (1 / n_d_l ^ 2 - 1)) + 1 := by
  have hsq : n_d_h ^ 2 ≤ 1 := by nlinarith
  have hasq : alpha ^ 2 ≤ 1 := by nlinarith
  have hap : 0 < alpha ^ 2 := by positivity
  refine ⟨?_, ?_, ?_, ?_, ?_⟩
  · simp only [GGX_smith]
    positivity
  · simp only [GGX_smith]
    positivity
  · nlinarith [mul_nonneg (sub_nonneg.2 hsq) (sub_nonneg.2 hasq)]
  · positivity
  · positivity

/-- Closed witness for `GGX_smith_safe` at the concrete cosines and alpha
all equal to 1. -/
theorem GGX_smith_safe_witness :
    ((0:ℝ) < 1 ∧ (1:ℝ) ≤ 1) ∧
      (0 ≤ (GGX_smith 1 1 1 1 1e-10).1 ∧
       0 ≤ (GGX_smith 1 1 1 1 1e-10).2 ∧
       0 < (1:ℝ) ^ 2 * ((1:ℝ) ^ 2 - 1) + 1 + 1e-10 ∧
       0 < Real.sqrt (1 + (1:ℝ) ^ 2 * (1 / (1:ℝ) ^ 2 - 1)) + 1 ∧
       0 < Real.sqrt (1 + (1:ℝ) ^ 2 * (1 / (1:ℝ) ^ 2 - 1)) + 1) :=
  ⟨⟨by norm_num, le_refl 1⟩,
   GGX_smith_safe 1 1 1 1 (by norm_num) (le_refl 1) (by norm_num) (le_refl 1)
     (by norm_num) (le_refl 1) (by norm_num) (le_refl 1)⟩

/-- C5: for every input, `diffuseBurley` returns exactly
`(diff_l · diff_v) / π` where `F_D90 = 2·roughness·(l·h)² + 0.5` and
`diff_x = 1 + (F_D90 − 1)·(1 − x)⁵` at `x = n·l` and `x = n·v`. -/
theorem diffuse_formula (n_d_l n_d_v l_d_h roughness : ℝ) :
    diffuse n_d_l n_d_v l_d_h roughness =
      (1 + (2 * roughness * l_d_h ^ 2 + 0.5 - 1) * (1 - n_d_l) ^ 5) *
        (1 + (2 * roughness * l_d_h ^ 2 + 0.5 - 1) * (1 - n_d_v) ^ 5) /
        Real.pi := rfl

/-- C9: for every pair of inputs and every epsilon, `dot` with the
non-negative clamp enabled returns at least that epsilon. -/
theorem dot_non_negative_ge_epsilon (tensor1 tensor2 : Vec3) (epsilon : ℝ) :
    epsilon ≤ dot tensor1 tensor2 true epsilon := by
  simp only [dot, if_true]
  exact le_max_right _ _

/-- C10: for every input to `shadeBurley`, the specular denominator
`4·(v·n)·(l·n)` — built from `dot` with the non-negative clamp at the
default `1e-6` — is at least `4·10⁻¹²`, hence nonzero. -/
theorem burley_specular_denominator_pos (normal_vecs incident_vecs view_vecs : Vec3) :
    (4:ℝ) / 10 ^ 12 ≤
        4 * dot view_vecs normal_vecs true 1e-6 *
          dot incident_vecs normal_vecs true 1e-6 ∧
      4 * dot view_vecs normal_vecs true 1e-6 *
          dot incident_vecs normal_vecs true 1e-6 ≠ 0 := by
  have hv : (1e-6:ℝ) ≤ dot view_vecs normal_vecs true 1e-6 := by
    simp only [dot, if_true]
    exact le_max_right _ _
  have hl : (1e-6:ℝ) ≤ dot incident_vecs normal_vecs true 1e-6 := by
    simp only [dot, if_true]
    exact le_max_right _ _
  have hv0 : (0:ℝ) < dot view_vecs normal_vecs true 1e-6 :=
    lt_of_lt_of_le (by norm_num) hv
  have hl0 : (0:ℝ) < dot incident_vecs normal_vecs true 1e-6 :=
    lt_of_lt_of_le (by norm_num) hl
  constructor
  · nlinarith
  · exact ne_of_gt (by positivity)

/-- C1: at every batch point where the falloff
`max(0, −(normalized normal · normalized light))` is `≤ 0` or the surface is
not forward-facing (`normalized normal · normalized view ≥ 0`), both arrays
returned by `applyShading` are exactly zero at that point. -/
theorem apply_shading_invisible_zero (normals view_dirs light_dirs specular : Vec3)
    (roughness : ℝ) (base_color : Vec3)
    (h : relu (-(dot3 (normalizeV normals) (normalizeV light_dirs))) ≤ 0 ∨
         0 ≤ dot3 (normalizeV normals) (normalizeV view_dirs)) :
    (apply_shading_burley normals view_dirs light_dirs specular roughness
        base_color).1 = zeroV ∧
    (apply_shading_burley normals view_dirs light_dirs specular roughness
        base_color).2 = zeroV := by
  have hfall : ¬ (0 < relu (-(dot3 (normalizeV normals) (normalizeV light_dirs))) ∧
      dot (normalizeV normals) (normalizeV view_dirs) false 1e-6 < 0) := by
    rintro ⟨h1, h2⟩
    rcases h with h | h
    · exact absurd h1 (not_lt.2 h)
    · have h2' : dot3 (normalizeV normals) (normalizeV view_dirs) < 0 := by
        simpa [dot] using h2
      exact absurd h2' (not_lt.2 h)
  refine ⟨?_, ?_⟩ <;>
  · simp only [apply_shading_burley]
    rw [if_neg hfall]
    simp [scaleV, zeroV]

/-- Closed witness for `apply_shading_invisible_zero`: the normal points up
and the light-to-surface direction also points up (the light is below the
surface), so the falloff is zero and both outputs vanish. -/
theorem apply_shading_invisible_zero_witness :
    (relu (-(dot3 (normalizeV ⟨0, 0, 1⟩) (normalizeV ⟨0, 0, 1⟩))) ≤ 0 ∨
       0 ≤ dot3 (normalizeV ⟨0, 0, 1⟩) (normalizeV ⟨0, 0, -1⟩)) ∧
    ((apply_shading_burley ⟨0, 0, 1⟩ ⟨0, 0, -1⟩ ⟨0, 0, 1⟩ ⟨1, 1, 1⟩ 0.5
        ⟨1, 1, 1⟩).1 = zeroV ∧
     (apply_shading_burley ⟨0, 0, 1⟩ ⟨0, 0, -1⟩ ⟨0, 0, 1⟩ ⟨1, 1, 1⟩ 0.5
        ⟨1, 1, 1⟩).2 = zeroV) := by
  have hmax : max (norm3 (⟨0, 0, 1⟩ : Vec3)) 1e-12 = 1 := by
    rw [show norm3 (⟨0, 0, 1⟩ : Vec3) = 1 by
      simp [norm3, dot3]]
    exact max_eq_left (by norm_num)
  have hyp : relu (-(dot3 (normalizeV ⟨0, 0, 1⟩) (normalizeV ⟨0, 0, 1⟩))) ≤ 0 ∨
      0 ≤ dot3 (normalizeV (⟨0, 0, 1⟩ : Vec3)) (normalizeV ⟨0, 0, -1⟩) := by
    left
    rw [show relu (-(dot3 (normalizeV ⟨0, 0, 1⟩) (normalizeV ⟨0, 0, 1⟩))) = 0 by
      simp [relu, normalizeV, dot3, hmax]]
  exact ⟨hyp, apply_shading_invisible_zero _ _ _ _ _ _ hyp⟩

/-- Specification-side formula for the specular radiance of `shadeBurley`,
written from the spec's words: `D·G·F / (4·(v·n)·(l·n))` where `(D, G)` is
`ggxSmith` at the half-vector/view/light cosines each clamped to at least
`1e-6`, `alpha = 0.0001 + roughness²·0.9998`, and
`F = F0 + (1−F0)·(1−l·h)⁵` with `F0 = specular·0.08` per channel. -/
def shadeBurleySpecularSpec (normal incident view specular : Vec3)
    (roughness : ℝ) : Vec3 :=
  let half := normalizeV (addV incident view)
  let hn := max (dot3 half normal) 1e-6
  let vn := max (dot3 view normal) 1e-6
  let ln := max (dot3 incident normal) 1e-6
  let lh := max (dot3 incident half) 1e-6
  let alpha := 0.0001 + roughness ^ 2 * 0.9998
  let DG := GGX_smith hn vn ln alpha 1e-10
  ⟨DG.1 * DG.2 * (specular.x * 0.08 + (1 - specular.x * 0.08) * (1 - lh) ^ 5) /
     (4 * vn * ln),
   DG.1 * DG.2 * (specular.y * 0.08 + (1 - specular.y * 0.08) * (1 - lh) ^ 5) /
     (4 * vn * ln),
   DG.1 * DG.2 * (specular.z * 0.08 + (1 - specular.z * 0.08) * (1 - lh) ^ 5) /
     (4 * vn * ln)⟩

/-- C2: for unit-length normal, incident and view inputs, the specular
radiance returned by `shadeBurley` equals the spec-side formula
`shadeBurleySpecularSpec`. -/
theorem burley_shading_specular_formula (normal incident view specular : Vec3)
    (roughness : ℝ) (base_color : Vec3)
    (hn : norm3 normal = 1) (hi : norm3 incident = 1) (hv : norm3 view = 1) :
    (burley_shading normal incident view specular roughness base_color).2 =
      shadeBurleySpecularSpec normal incident view specular roughness := by
  have halpha : (1:ℝ) - 0.0002 = 0.9998 := by norm_num
  simp only [burley_shading, shadeBurleySpecularSpec, dot, if_true, scaleV,
    halpha]

/-- Closed witness for `burley_shading_specular_formula` with every
direction the unit vector `(0,0,1)`. -/
theorem burley_shading_specular_formula_witness :
    (norm3 (⟨0, 0, 1⟩ : Vec3) = 1 ∧
     norm3 (⟨0, 0, 1⟩ : Vec3) = 1 ∧
     norm3 (⟨0, 0, 1⟩ : Vec3) = 1) ∧
    (burley_shading ⟨0, 0, 1⟩ ⟨0, 0, 1⟩ ⟨0, 0, 1⟩ ⟨0.5, 0.5, 0.5⟩ 0.5
        ⟨1, 1, 1⟩).2 =
      shadeBurleySpecularSpec ⟨0, 0, 1⟩ ⟨0, 0, 1⟩ ⟨0, 0, 1⟩ ⟨0.5, 0.5, 0.5⟩
        0.5 := by
  have h1 : norm3 (⟨0, 0, 1⟩ : Vec3) = 1 := by simp [norm3, dot3]
  exact ⟨⟨h1, h1, h1⟩,
    burley_shading_specular_formula _ _ _ _ _ _ h1 h1 h1⟩

/-- Identity-like pinhole intrinsic: `fx = fy = 1`, `cx = cy = 0`. -/
def idIntrinsic : Intrinsic := ⟨1, 1, 0, 0⟩

/-- Identity camera-to-world transform: identity rotation, zero
translation. -/
def idC2w : C2W := ⟨1, 0, 0, 0, 1, 0, 0, 0, 1, 0, 0, 0⟩

/-- Fully zero camera-to-world transform (a degenerate input). -/
def zeroC2w : C2W := ⟨0, 0, 0, 0, 0, 0, 0, 0, 0, 0, 0, 0⟩

/-- C7: with the identity-like pinhole intrinsic and the identity
camera-to-world transform, the `viewdirs` entry at row `y`, column `x`
equals the unit-normalization of `(x + 0.5, y + 0.5, 1)` for every pixel
with `x < width` and `y < height`. -/
theorem computeRays_identity (height width xPix yPix : ℕ)
    (hx : xPix < width) (hy : yPix < height) :
    computeRaysViewdir idC2w idIntrinsic width yPix xPix =
      normalizePlain ⟨(xPix : ℝ) + 0.5, (yPix : ℝ) + 0.5, 1⟩ := by
  have hw : 0 < width := lt_of_le_of_lt (Nat.zero_le _) hx
  have hmod : (yPix * width + xPix) % width = xPix := by
    rw [Nat.mul_comm, Nat.mul_add_mod, Nat.mod_eq_of_lt hx]
  have hdiv : (yPix * width + xPix) / width = yPix := by
    rw [Nat.mul_comm, Nat.mul_add_div hw, Nat.div_eq_of_lt hx, Nat.add_zero]
  have harg : raysFlatDir idC2w idIntrinsic width (yPix * width + xPix) =
      ⟨(xPix : ℝ) + 0.5, (yPix : ℝ) + 0.5, 1⟩ := by
    simp only [raysFlatDir, hmod, hdiv, rotApply, cameraDir, idC2w, idIntrinsic]
    norm_num
  rw [computeRaysViewdir, harg]

/-- Closed witness for `computeRays_identity` at a 1×1 image and its
single pixel `(0, 0)`. -/
theorem computeRays_identity_witness :
    ((0 : ℕ) < 1 ∧ (0 : ℕ) < 1) ∧
    computeRaysViewdir idC2w idIntrinsic 1 0 0 =
      normalizePlain ⟨((0 : ℕ) : ℝ) + 0.5, ((0 : ℕ) : ℝ) + 0.5, 1⟩ :=
  ⟨⟨Nat.zero_lt_one, Nat.zero_lt_one⟩,
   computeRays_identity 1 1 0 0 Nat.zero_lt_one Nat.zero_lt_one⟩

/-- A vector with a nonzero component has positive squared norm. -/
theorem dot3_self_pos (v : Vec3) (h : v ≠ zeroV) : 0 < dot3 v v := by
  have hnn : 0 ≤ dot3 v v := by
    simp only [dot3]
    nlinarith [mul_self_nonneg v.x, mul_self_nonneg v.y, mul_self_nonneg v.z]
  rcases eq_or_lt_of_le hnn with heq | hlt
  · exfalso
    apply h
    have hx : v.x = 0 := by
      refine mul_self_eq_zero.1 ?_
      simp only [dot3] at heq
      nlinarith [mul_self_nonneg v.x, mul_self_nonneg v.y, mul_self_nonneg v.z]
    have hy : v.y = 0 := by
      refine mul_self_eq_zero.1 ?_
      simp only [dot3] at heq
      nlinarith [mul_self_nonneg v.x, mul_self_nonneg v.y, mul_self_nonneg v.z]
    have hz : v.z = 0 := by
      refine mul_self_eq_zero.1 ?_
      simp only [dot3] at heq
      nlinarith [mul_self_nonneg v.x, mul_self_nonneg v.y, mul_self_nonneg v.z]
    refine Vec3.ext ?_ ?_ ?_ <;> simp [zeroV, hx, hy, hz]
  · exact hlt

/-- C8 (amended): whenever the unnormalized world-space direction at a
pixel is nonzero, the corresponding `viewdirs` entry of `computeRays` has
unit Euclidean norm.  (The unrestricted claim fails on degenerate
transforms, see `computeRays_unit_norm_counterexample`.) -/
theorem computeRays_unit_norm (c2w : C2W) (intrinsic : Intrinsic)
    (width yPix xPix : ℕ)
    (h : raysFlatDir c2w intrinsic width (yPix * width + xPix) ≠ zeroV) :
    norm3 (computeRaysViewdir c2w intrinsic width yPix xPix) = 1 := by
  have hd : 0 < dot3 (raysFlatDir c2w intrinsic width (yPix * width + xPix))
      (raysFlatDir c2w intrinsic width (yPix * width + xPix)) :=
    dot3_self_pos _ h
  set d := raysFlatDir c2w intrinsic width (yPix * width + xPix) with hdef
  have hs : 0 < Real.sqrt (dot3 d d) := Real.sqrt_pos.2 hd
  have hnn : 0 ≤ d.x * d.x + d.y * d.y + d.z * d.z := by
    nlinarith [mul_self_nonneg d.x, mul_self_nonneg d.y, mul_self_nonneg d.z]
  have hs' : Real.sqrt (d.x * d.x + d.y * d.y + d.z * d.z) ≠ 0 := by
    have h0 := hs
    simp only [dot3] at h0
    exact h0.ne'
  have hone : dot3 (normalizePlain d) (normalizePlain d) = 1 := by
    simp only [normalizePlain, dot3, norm3]
    field_simp
    have hd' : d.x * d.x + d.y * d.y + d.z * d.z ≠ 0 := by
      have h0 := hd.ne'
      simpa [dot3] using h0
    exact div_self hd'
  rw [computeRaysViewdir, ← hdef, norm3, hone, Real.sqrt_one]

/-- The unrestricted version of C8 is false: with the all-zero
camera-to-world transform the world-space direction is zero, its
normalization is the zero vector, and the resulting `viewdirs` entry has
norm 0, not 1. -/
theorem computeRays_unit_norm_counterexample :
    norm3 (computeRaysViewdir zeroC2w idIntrinsic 1 0 0) ≠ 1 := by
  have : computeRaysViewdir zeroC2w idIntrinsic 1 0 0 = zeroV := by
    simp [computeRaysViewdir, raysFlatDir, rotApply, cameraDir, zeroC2w,
      idIntrinsic, normalizePlain, zeroV]
  rw [this]
  simp [norm3, dot3, zeroV]

/-- Closed witness for `computeRays_unit_norm`: the identity camera at
pixel `(0, 0)` of a 1×1 image has the nonzero direction `(0.5, 0.5, 1)`
and a unit-norm view direction. -/
theorem computeRays_unit_norm_witness :
    raysFlatDir idC2w idIntrinsic 1 (0 * 1 + 0) ≠ zeroV ∧
    norm3 (computeRaysViewdir idC2w idIntrinsic 1 0 0) = 1 := by
  have hne : raysFlatDir idC2w idIntrinsic 1 (0 * 1 + 0) ≠ zeroV := by
    simp [raysFlatDir, rotApply, cameraDir, idC2w, idIntrinsic, zeroV,
      Vec3.mk.injEq]
  exact ⟨hne, computeRays_unit_norm idC2w idIntrinsic 1 0 0 hne⟩

/-- C6: for normal `(0,0,1)`, light `(0,0,-1)` and view `(0,0,-1)` in the
camera/light-to-surface convention, base color `(1,1,1)`, specular
`(0.5,0.5,0.5)` and roughness `0.5`, `applyShading` returns diffuse
`1/π` in each channel (falloff is 1) and a strictly positive specular
value in each channel. -/
theorem apply_shading_scenario :
    (apply_shading_burley ⟨0, 0, 1⟩ ⟨0, 0, -1⟩ ⟨0, 0, -1⟩ ⟨0.5, 0.5, 0.5⟩
        0.5 ⟨1, 1, 1⟩).1 = ⟨1 / Real.pi, 1 / Real.pi, 1 / Real.pi⟩ ∧
    (0 < (apply_shading_burley ⟨0, 0, 1⟩ ⟨0, 0, -1⟩ ⟨0, 0, -1⟩
        ⟨0.5, 0.5, 0.5⟩ 0.5 ⟨1, 1, 1⟩).2.x ∧
     0 < (apply_shading_burley ⟨0, 0, 1⟩ ⟨0, 0, -1⟩ ⟨0, 0, -1⟩
        ⟨0.5, 0.5, 0.5⟩ 0.5 ⟨1, 1, 1⟩).2.y ∧
     0 < (apply_shading_burley ⟨0, 0, 1⟩ ⟨0, 0, -1⟩ ⟨0, 0, -1⟩
        ⟨0.5, 0.5, 0.5⟩ 0.5 ⟨1, 1, 1⟩).2.z) := by
  have hsqrt4 : Real.sqrt 4 = 2 := by
    rw [show (4:ℝ) = 2 ^ 2 by norm_num]
    exact Real.sqrt_sq (by norm_num)
  have hmaxA : max (1:ℝ) 1e-12 = 1 := max_eq_left (by norm_num)
  have hmaxB : max (2:ℝ) 1e-12 = 2 := max_eq_left (by norm_num)
  have hmaxC : max (1:ℝ) 1e-6 = 1 := max_eq_left (by norm_num)
  have hmaxD : max (1:ℝ) 0 = 1 := max_eq_left (by norm_num)
  refine ⟨?_, ?_, ?_, ?_⟩ <;>
    norm_num [apply_shading_burley, burley_shading, GGX_smith, diffuse, dot,
      dot3, normalizeV, addV, negV, scaleV, relu, norm3, hsqrt4, hmaxA, hmaxB,
      hmaxC, hmaxD]
  all_goals positivity

end RenderUtils
